import Mathlib

/-!
# Dawn SPIRV-Cross HLSL full fuzzer: harness model

Shallow embedding of `src/fuzzers/DawnSPIRVCrossHLSLFullFuzzer.cpp`.

The two functions of that file, `FuzzTask` and `LLVMFuzzerTestOneInput`, are
embedded as state-passing programs over a `World` that records every call made
(in program order) and the number of compiler instances alive.  The SPIRV-Cross
compiler is an external collaborator and is a parameter of the model: every
theorem quantifies over all of its possible behaviours.
-/

namespace Dawn

/-! ## Outcomes of an operation -/

/-- The ways an operation can fail to return normally: a compiler-defined
diagnostic (a C++ exception leaving the call, e.g. "invalid module") or a
process-level abnormal termination (a crash, delivered as a signal). -/
inductive Failure where
  | diagnostic (what : String)
  | crash (signal : Nat)
  deriving DecidableEq, Repr

/-- The aggregate `DawnSPIRVCrossFuzzer::CombinedOptions`; the code reads its
two members `glsl` and `hlsl`.  The member types belong to the compiler and are
parameters. -/
structure CombinedOptions (G H : Type) where
  glsl : G
  hlsl : H
  deriving DecidableEq, Repr

/-- The interface of `spirv_cross::CompilerHLSL` used by the harness.  Each
operation either returns normally or fails; the setters return the updated
instance.  `Inst` is the state of a compiler instance. -/
structure CompilerHLSL (G H Inst : Type) where
  construct : List Nat → Except Failure Inst
  set_common_options : Inst → G → Except Failure Inst
  set_hlsl_options : Inst → H → Except Failure Inst
  compile : Inst → Except Failure String

/-! ## Calls and the world -/

/-- A call made during one run, with its arguments; method calls record the
state of the instance they are invoked on.  `destroy` is the destructor of the
local compiler object, run when its scope is left. -/
inductive Call (G H Inst : Type) where
  | RunWithOptions (data : List Nat) (size : Nat)
  | FuzzTask (input : List Nat) (options : CombinedOptions G H)
  | construct (input : List Nat)
  | set_common_options (self : Inst) (opts : G)
  | set_hlsl_options (self : Inst) (opts : H)
  | compile (self : Inst)
  | destroy

/-- Everything that persists in the process across calls: the calls made so far
(oldest first) and the number of compiler instances currently alive. -/
structure World (G H Inst : Type) where
  trace : List (Call G H Inst)
  live : Nat

/-- Append one call to the trace. -/
def World.record {G H Inst : Type} (w : World G H Inst) (c : Call G H Inst) :
    World G H Inst :=
  { w with trace := w.trace ++ [c] }

/-- A program: from the world before to its outcome and the world after.  The
world after is kept on failure too, so that the calls made before a failure
stay visible. -/
abbrev Prog (G H Inst α : Type) := World G H Inst → Except Failure α × World G H Inst

/-- Leaving the scope of the local compiler object.  On a normal return and
when a diagnostic unwinds through the scope the destructor runs; a crash ends
the process on the spot and runs nothing. -/
def leaveScope {G H Inst α : Type} (r : Except Failure α) (w : World G H Inst) :
    Except Failure α × World G H Inst :=
  match r with
  | .error (.crash s) => (.error (.crash s), w)
  | r => (r, { trace := w.trace ++ [.destroy], live := w.live - 1 })

/-! ## The source file -/

/-- The function `int FuzzTask(std::vector<uint32_t> input, CombinedOptions options)`.

```
spirv_cross::CompilerHLSL compiler(input);
compiler.set_common_options(options.glsl);
compiler.set_hlsl_options(options.hlsl);
std::string result = compiler.compile();
return 0;
```
There is no `try`, so a failure of any of the four calls leaves the function
as it is. -/
def FuzzTask {G H Inst : Type} (api : CompilerHLSL G H Inst) (input : List Nat)
    (options : CombinedOptions G H) : Prog G H Inst Int := fun w =>
  let w := w.record (.construct input)
  match api.construct input with
  | .error e => (.error e, w)
  | .ok c0 =>
    let w := { w with live := w.live + 1 }
    let w := w.record (.set_common_options c0 options.glsl)
    match api.set_common_options c0 options.glsl with
    | .error e => leaveScope (.error e) w
    | .ok c1 =>
      let w := w.record (.set_hlsl_options c1 options.hlsl)
      match api.set_hlsl_options c1 options.hlsl with
      | .error e => leaveScope (.error e) w
      | .ok c2 =>
        let w := w.record (.compile c2)
        match api.compile c2 with
        | .error e => leaveScope (.error e) w
        | .ok _result => leaveScope (.ok 0) w

/-- The type of the task handed to `RunWithOptions`. -/
abbrev Task (G H Inst : Type) := List Nat → CombinedOptions G H → Prog G H Inst Int

/-- The exported function
`extern "C" int LLVMFuzzerTestOneInput(const uint8_t* data, size_t size)`.

```
return DawnSPIRVCrossFuzzer::RunWithOptions<CombinedOptions>(data, size, FuzzTask);
```
`data` is the memory behind the pointer.  `RunWithOptions` is defined in
another file and is the parameter `run`. -/
def LLVMFuzzerTestOneInput {G H Inst : Type} (api : CompilerHLSL G H Inst)
    (run : List Nat → Nat → Task G H Inst → Prog G H Inst Int)
    (data : List Nat) (size : Nat) : Prog G H Inst Int := fun w =>
  run data size (FuzzTask api) (w.record (.RunWithOptions data size))

/-! ## The harness around the source file

`RunWithOptions`, the option decoder and the module extractor live in
`DawnSPIRVCrossFuzzer.cpp`, which is not part of the sources at hand.  They are
modelled from the specification (sections 4.1, 4.2 and 4.4). -/

/-- Modelled from the spec: one field of the OptionSet as the Option Decoder of
`RunWithOptions` sees it (section 4.1): it is derived from a small, fixed slice
of `width` bytes by `decode`, and takes the designated `default` when the
stream is too short for the slice. -/
structure OptionField where
  width : Nat
  default : Nat
  decode : List Nat → Nat
  width_pos : 0 < width

/-- Modelled from the spec: the fields of the two option groups of the
OptionSet decoded by `RunWithOptions`, the shared group first; the groups
occupy disjoint, consecutive byte ranges at fixed offsets (sections 4.1, 9). -/
structure OptionLayout where
  glsl : List OptionField
  hlsl : List OptionField

/-- Modelled from the spec: the number of bytes the fields of one group of the
Option Decoder occupy. -/
def groupWidth (fs : List OptionField) : Nat :=
  (fs.map (fun f => f.width)).sum

/-- Modelled from the spec: the fixed consumption length of the Option Decoder
of `RunWithOptions`. -/
def OptionLayout.consumed (L : OptionLayout) : Nat :=
  groupWidth L.glsl + groupWidth L.hlsl

/-- Modelled from the spec: decoding one field of the Option Decoder at its
fixed offset: the slice when the stream holds all of it, else the default;
nothing past the end of the input is read (section 4.1). -/
def decodeField (f : OptionField) (offset : Nat) (raw : List Nat) : Nat :=
  if offset + f.width ≤ raw.length then f.decode ((raw.drop offset).take f.width)
  else f.default

/-- Modelled from the spec: decoding one option group of the Option Decoder,
field by field at consecutive offsets; no field depends on another field. -/
def decodeGroup : List OptionField → Nat → List Nat → List Nat
  | [], _, _ => []
  | f :: fs, offset, raw => decodeField f offset raw :: decodeGroup fs (offset + f.width) raw

/-- Modelled from the spec: the Option Decoder of `RunWithOptions`
(section 4.1): a total, pure function of the raw input. -/
def decodeOptions (L : OptionLayout) (raw : List Nat) :
    CombinedOptions (List Nat) (List Nat) :=
  { glsl := decodeGroup L.glsl 0 raw
    hlsl := decodeGroup L.hlsl (groupWidth L.glsl) raw }

/-- Modelled from the spec: one 32-bit word of the Module Extractor from four
consecutive bytes, lowest byte first. -/
def wordOfBytes (b0 b1 b2 b3 : Nat) : Nat :=
  b0 % 256 + 256 * (b1 % 256) + 65536 * (b2 % 256) + 16777216 * (b3 % 256)

/-- Modelled from the spec: the Module Extractor of `RunWithOptions`
(section 4.2): consecutive complete words; trailing bytes that do not form a
complete word are dropped. -/
def extractWords : List Nat → List Nat
  | b0 :: b1 :: b2 :: b3 :: rest => wordOfBytes b0 b1 b2 b3 :: extractWords rest
  | _ => []

/-- Modelled from the spec: the harness function
`DawnSPIRVCrossFuzzer::RunWithOptions<CombinedOptions>(data, size, task)`,
whose definition is in `DawnSPIRVCrossFuzzer.cpp`: view the first `size` bytes
behind `data` as the raw input, decode the options from its head and the module
words from what follows, invoke the task once and return its status
(sections 2, 4.4). -/
def RunWithOptions {Inst : Type} (L : OptionLayout) (data : List Nat) (size : Nat)
    (task : Task (List Nat) (List Nat) Inst) : Prog (List Nat) (List Nat) Inst Int := fun w =>
  let raw := data.take size
  let options := decodeOptions L raw
  let input := extractWords (raw.drop L.consumed)
  task input options (w.record (.FuzzTask input options))

/-! ## A sample collaborator

A small compiler used to evaluate the harness on concrete inputs.  It is one
possible behaviour of the parameter `api`, not a model of SPIRV-Cross. -/

/-- State of a sample compiler instance: the module and the two option groups. -/
structure SampleInst where
  ir : List Nat
  common : List Nat
  hlsl : List Nat
  deriving DecidableEq, Repr

/-- The sample compiler: the constructor rejects the empty module with the
diagnostic "invalid module"; the setters store their argument; `compile` aborts
on a module starting with word 0, rejects one starting with word 1 and
otherwise returns a text. -/
def sampleCompiler : CompilerHLSL (List Nat) (List Nat) SampleInst where
  construct := fun input =>
    if input = [] then .error (.diagnostic "invalid module")
    else .ok { ir := input, common := [], hlsl := [] }
  set_common_options := fun c o => .ok { c with common := o }
  set_hlsl_options := fun c o => .ok { c with hlsl := o }
  compile := fun c =>
    match c.ir with
    | 0 :: _ => .error (.crash 6)
    | 1 :: _ => .error (.diagnostic "unsupported")
    | _ => .ok "void main() {}"

/-- A sample layout: two one-byte shared fields and one two-byte target field. -/
def sampleLayout : OptionLayout where
  glsl :=
    [ { width := 1, default := 0, decode := fun bs => bs.headD 0 % 3, width_pos := by decide },
      { width := 1, default := 1, decode := fun bs => bs.headD 0 % 2, width_pos := by decide } ]
  hlsl :=
    [ { width := 2, default := 30, decode := fun bs => bs.sum % 7, width_pos := by decide } ]

/-- The world of a process that has made no call yet. -/
def World.fresh {G H Inst : Type} : World G H Inst := { trace := [], live := 0 }

/-! ## Shared lemmas -/

/-- The status of `FuzzTask`, when it returns one, is 0. -/
theorem FuzzTask_status_eq_zero {G H Inst : Type} (api : CompilerHLSL G H Inst)
    (input : List Nat) (options : CombinedOptions G H) (w : World G H Inst) (s : Int)
    (h : (FuzzTask api input options w).1 = .ok s) : s = 0 := by
  unfold FuzzTask at h
  cases h0 : api.construct input with
  | error e => simp [h0] at h
  | ok c0 =>
    cases h1 : api.set_common_options c0 options.glsl with
    | error e => cases e <;> simp [h0, h1, leaveScope] at h
    | ok c1 =>
      cases h2 : api.set_hlsl_options c1 options.hlsl with
      | error e => cases e <;> simp [h0, h1, h2, leaveScope] at h
      | ok c2 =>
        cases h3 : api.compile c2 with
        | error e => cases e <;> simp [h0, h1, h2, h3, leaveScope] at h
        | ok text =>
          simp [h0, h1, h2, h3, leaveScope] at h
          exact h.symm

/-- Frame property of `FuzzTask`: its outcome, the calls it makes and its effect
on the number of live instances are those of a run in a fresh process; the
world it starts in is only extended, never read. -/
theorem FuzzTask_frame {G H Inst : Type} (api : CompilerHLSL G H Inst)
    (input : List Nat) (options : CombinedOptions G H) (w : World G H Inst) :
    FuzzTask api input options w =
      ((FuzzTask api input options World.fresh).1,
       { trace := w.trace ++ (FuzzTask api input options World.fresh).2.trace
         live := w.live + (FuzzTask api input options World.fresh).2.live }) := by
  unfold FuzzTask
  cases h0 : api.construct input with
  | error e => simp [World.record, World.fresh]
  | ok c0 =>
    cases h1 : api.set_common_options c0 options.glsl with
    | error e => cases e <;> simp [h1, World.record, World.fresh, leaveScope]
    | ok c1 =>
      cases h2 : api.set_hlsl_options c1 options.hlsl with
      | error e => cases e <;> simp [h1, h2, World.record, World.fresh, leaveScope]
      | ok c2 =>
        cases h3 : api.compile c2 with
        | error e => cases e <;> simp [h1, h2, h3, World.record, World.fresh, leaveScope]
        | ok text => simp [h1, h2, h3, World.record, World.fresh, leaveScope]

/-- The extractor yields one word per complete group of four bytes. -/
theorem extractWords_length (l : List Nat) : (extractWords l).length = l.length / 4 := by
  induction l using extractWords.induct with
  | case1 b0 b1 b2 b3 rest ih =>
    simp only [extractWords, List.length_cons, ih]
    omega
  | case2 l h =>
    have hl : l.length < 4 := by
      match l, h with
      | [], _ => simp
      | [_], _ => simp
      | [_, _], _ => simp
      | [_, _, _], _ => simp
      | b0 :: b1 :: b2 :: b3 :: rest, h => exact absurd rfl (h b0 b1 b2 b3 rest)
    have h0 : extractWords l = [] := by
      unfold extractWords
      split
      · next b0 b1 b2 b3 rest => exact absurd rfl (h b0 b1 b2 b3 rest)
      · rfl
    rw [h0]
    simp
    omega

/-- Fewer than four bytes hold no word. -/
theorem extractWords_short (l : List Nat) (h : l.length < 4) : extractWords l = [] := by
  match l, h with
  | [], _ => rfl
  | [_], _ => rfl
  | [_, _], _ => rfl
  | [_, _, _], _ => rfl
  | _ :: _ :: _ :: _ :: rest, h => simp at h; omega

/-- The bytes after the last complete word do not reach the extractor's
output: cutting them off changes nothing. -/
theorem extractWords_take (l : List Nat) :
    extractWords (l.take (4 * (l.length / 4))) = extractWords l := by
  induction l using extractWords.induct with
  | case1 b0 b1 b2 b3 rest ih =>
    have h : 4 * ((b0 :: b1 :: b2 :: b3 :: rest).length / 4)
        = 4 * (rest.length / 4) + 1 + 1 + 1 + 1 := by
      simp only [List.length_cons]
      omega
    rw [h]
    simp only [List.take_succ_cons, extractWords, ih]
  | case2 l h =>
    have hl : l.length < 4 := by
      match l, h with
      | [], _ => simp
      | [_], _ => simp
      | [_, _], _ => simp
      | [_, _, _], _ => simp
      | b0 :: b1 :: b2 :: b3 :: rest, h => exact absurd rfl (h b0 b1 b2 b3 rest)
    have hq : l.length / 4 = 0 := by omega
    rw [hq, extractWords_short l hl]
    rfl

/-- Word `k` of the extractor's output is made of the four bytes at `4 * k`. -/
theorem extractWords_word (l : List Nat) (k : Nat) (hk : k < l.length / 4) :
    (extractWords l)[k]? =
      some (wordOfBytes (l.getD (4 * k) 0) (l.getD (4 * k + 1) 0)
        (l.getD (4 * k + 2) 0) (l.getD (4 * k + 3) 0)) := by
  induction l using extractWords.induct generalizing k with
  | case1 b0 b1 b2 b3 rest ih =>
    cases k with
    | zero => simp [extractWords]
    | succ j =>
      have hj : j < rest.length / 4 := by
        simp only [List.length_cons] at hk
        omega
      have e0 : 4 * (j + 1) = 4 * j + 1 + 1 + 1 + 1 := by omega
      have e1 : 4 * (j + 1) + 1 = 4 * j + 1 + 1 + 1 + 1 + 1 := by omega
      have e2 : 4 * (j + 1) + 2 = 4 * j + 2 + 1 + 1 + 1 + 1 := by omega
      have e3 : 4 * (j + 1) + 3 = 4 * j + 3 + 1 + 1 + 1 + 1 := by omega
      rw [e1, e2, e3, e0]
      simp only [extractWords, List.getElem?_cons_succ, List.getD_cons_succ]
      exact ih j hj
  | case2 l h =>
    have hl : l.length < 4 := by
      match l, h with
      | [], _ => simp
      | [_], _ => simp
      | [_, _], _ => simp
      | [_, _, _], _ => simp
      | b0 :: b1 :: b2 :: b3 :: rest, h => exact absurd rfl (h b0 b1 b2 b3 rest)
    omega

/-- A word assembled from four bytes fits in 32 bits. -/
theorem wordOfBytes_lt (b0 b1 b2 b3 : Nat) : wordOfBytes b0 b1 b2 b3 < 4294967296 := by
  unfold wordOfBytes
  omega

/-- Every word of the extractor's output fits in 32 bits. -/
theorem extractWords_lt (l : List Nat) : ∀ x ∈ extractWords l, x < 4294967296 := by
  induction l using extractWords.induct with
  | case1 b0 b1 b2 b3 rest ih =>
    intro x hx
    simp only [extractWords, List.mem_cons] at hx
    rcases hx with hx | hx
    · rw [hx]
      exact wordOfBytes_lt b0 b1 b2 b3
    · exact ih x hx
  | case2 l h =>
    intro x hx
    have h0 : extractWords l = [] := by
      unfold extractWords
      split
      · next b0 b1 b2 b3 rest => exact absurd rfl (h b0 b1 b2 b3 rest)
      · rfl
    rw [h0] at hx
    cases hx

/-- C1: whenever the constructor, both option setters and `compile()` return
normally, `FuzzTask` returns 0, whatever the module, the option values and the
text `compile()` produced. -/
theorem FuzzTask_returns_zero {G H Inst : Type} (api : CompilerHLSL G H Inst)
    (input : List Nat) (options : CombinedOptions G H) (w : World G H Inst)
    (c0 c1 c2 : Inst) (text : String)
    (h0 : api.construct input = .ok c0)
    (h1 : api.set_common_options c0 options.glsl = .ok c1)
    (h2 : api.set_hlsl_options c1 options.hlsl = .ok c2)
    (h3 : api.compile c2 = .ok text) :
    (FuzzTask api input options w).1 = .ok 0 := by
  simp [FuzzTask, h0, h1, h2, h3, leaveScope]

/-- Witness for C1: the sample compiler accepts the module `[7]`. -/
theorem FuzzTask_returns_zero_witness :
    sampleCompiler.construct [7] = .ok ⟨[7], [], []⟩ ∧
    sampleCompiler.set_common_options ⟨[7], [], []⟩ [1] = .ok ⟨[7], [1], []⟩ ∧
    sampleCompiler.set_hlsl_options ⟨[7], [1], []⟩ [2] = .ok ⟨[7], [1], [2]⟩ ∧
    sampleCompiler.compile ⟨[7], [1], [2]⟩ = .ok "void main() {}" ∧
    (FuzzTask sampleCompiler [7] ⟨[1], [2]⟩ World.fresh).1 = .ok 0 :=
  ⟨rfl, rfl, rfl, rfl,
   FuzzTask_returns_zero sampleCompiler [7] ⟨[1], [2]⟩ World.fresh
     ⟨[7], [], []⟩ ⟨[7], [1], []⟩ ⟨[7], [1], [2]⟩ "void main() {}" rfl rfl rfl rfl⟩

/-- C2, as stated, fails: the sample compiler raises the diagnostic
"invalid module" from its constructor on the empty module and the diagnostic
"unsupported" from `compile()` on the module `[1]`; in both runs `FuzzTask` does
not return 0, its outcome is the diagnostic. -/
theorem FuzzTask_diagnostic_not_swallowed :
    sampleCompiler.construct [] = .error (.diagnostic "invalid module") ∧
    (FuzzTask sampleCompiler [] ⟨[], []⟩ World.fresh).1
      = .error (.diagnostic "invalid module") ∧
    (FuzzTask sampleCompiler [] ⟨[], []⟩ World.fresh).1 ≠ .ok 0 ∧
    sampleCompiler.compile ⟨[1], [], []⟩ = .error (.diagnostic "unsupported") ∧
    (FuzzTask sampleCompiler [1] ⟨[], []⟩ World.fresh).1
      = .error (.diagnostic "unsupported") ∧
    (FuzzTask sampleCompiler [1] ⟨[], []⟩ World.fresh).1 ≠ .ok 0 := by
  refine ⟨rfl, rfl, ?_, rfl, rfl, ?_⟩
  · intro h
    have h' : (Except.error (Failure.diagnostic "invalid module") : Except Failure Int)
        = .ok 0 := h
    cases h'
  · intro h
    have h' : (Except.error (Failure.diagnostic "unsupported") : Except Failure Int)
        = .ok 0 := h
    cases h'

/-- C2, amended: `FuzzTask` has no recovery of its own.  When the constructor,
or `compile()` after a normal construction and configuration, raises a
compiler-defined diagnostic `d`, the outcome of `FuzzTask` is that diagnostic,
handed on to its caller; it is not a return of 0. -/
theorem FuzzTask_diagnostic_propagates {G H Inst : Type} (api : CompilerHLSL G H Inst)
    (input : List Nat) (options : CombinedOptions G H) (w : World G H Inst) (d : String)
    (h : api.construct input = .error (.diagnostic d) ∨
      ∃ c0 c1 c2, api.construct input = .ok c0 ∧
        api.set_common_options c0 options.glsl = .ok c1 ∧
        api.set_hlsl_options c1 options.hlsl = .ok c2 ∧
        api.compile c2 = .error (.diagnostic d)) :
    (FuzzTask api input options w).1 = .error (.diagnostic d) ∧
    (FuzzTask api input options w).1 ≠ .ok 0 := by
  have key : (FuzzTask api input options w).1 = .error (.diagnostic d) := by
    rcases h with h0 | ⟨c0, c1, c2, h0, h1, h2, h3⟩
    · simp [FuzzTask, h0]
    · simp [FuzzTask, h0, h1, h2, h3, leaveScope]
  refine ⟨key, ?_⟩
  rw [key]
  intro h'
  cases h'

/-- Witness for the amended C2: the constructor of the sample compiler raises
"invalid module" on the empty module. -/
theorem FuzzTask_diagnostic_propagates_witness :
    sampleCompiler.construct [] = .error (.diagnostic "invalid module") ∧
    (FuzzTask sampleCompiler [] ⟨[], []⟩ World.fresh).1
      = .error (.diagnostic "invalid module") ∧
    (FuzzTask sampleCompiler [] ⟨[], []⟩ World.fresh).1 ≠ .ok 0 :=
  ⟨rfl, FuzzTask_diagnostic_propagates sampleCompiler [] ⟨[], []⟩ World.fresh
    "invalid module" (Or.inl rfl)⟩

/-- C3: `FuzzTask` masks no failure.  If the constructor, `set_common_options`,
`set_hlsl_options` or `compile()` (each reached after the earlier ones returned
normally) fails with `e`, the outcome of `FuzzTask` is the failure `e` itself,
so never a normal return. -/
theorem FuzzTask_propagates_failure {G H Inst : Type} (api : CompilerHLSL G H Inst)
    (input : List Nat) (options : CombinedOptions G H) (w : World G H Inst) (e : Failure)
    (h : api.construct input = .error e ∨
      (∃ c0, api.construct input = .ok c0 ∧
        api.set_common_options c0 options.glsl = .error e) ∨
      (∃ c0 c1, api.construct input = .ok c0 ∧
        api.set_common_options c0 options.glsl = .ok c1 ∧
        api.set_hlsl_options c1 options.hlsl = .error e) ∨
      (∃ c0 c1 c2, api.construct input = .ok c0 ∧
        api.set_common_options c0 options.glsl = .ok c1 ∧
        api.set_hlsl_options c1 options.hlsl = .ok c2 ∧
        api.compile c2 = .error e)) :
    (FuzzTask api input options w).1 = .error e ∧
    ∀ s, (FuzzTask api input options w).1 ≠ .ok s := by
  have key : (FuzzTask api input options w).1 = .error e := by
    rcases h with h0 | ⟨c0, h0, h1⟩ | ⟨c0, c1, h0, h1, h2⟩ | ⟨c0, c1, c2, h0, h1, h2, h3⟩
    · simp [FuzzTask, h0]
    · cases e <;> simp [FuzzTask, h0, h1, leaveScope]
    · cases e <;> simp [FuzzTask, h0, h1, h2, leaveScope]
    · cases e <;> simp [FuzzTask, h0, h1, h2, h3, leaveScope]
  refine ⟨key, ?_⟩
  intro s h'
  rw [key] at h'
  cases h'

/-- Witness for C3: `compile()` of the sample compiler aborts (signal 6) on the
module `[0]`, and that crash is the outcome of `FuzzTask`. -/
theorem FuzzTask_propagates_failure_witness :
    sampleCompiler.compile ⟨[0], [1], [2]⟩ = .error (.crash 6) ∧
    (FuzzTask sampleCompiler [0] ⟨[1], [2]⟩ World.fresh).1 = .error (.crash 6) ∧
    ∀ s, (FuzzTask sampleCompiler [0] ⟨[1], [2]⟩ World.fresh).1 ≠ .ok s :=
  ⟨rfl, FuzzTask_propagates_failure sampleCompiler [0] ⟨[1], [2]⟩ World.fresh (.crash 6)
    (Or.inr (Or.inr (Or.inr
      ⟨⟨[0], [], []⟩, ⟨[0], [1], []⟩, ⟨[0], [1], [2]⟩, rfl, rfl, rfl, rfl⟩)))⟩

/-- C4: the entry point makes one call of `RunWithOptions`, with its own `data`
and `size` and with `FuzzTask` as the task, and its outcome and effects are
those of that call: in particular it returns exactly the status the call
returns.  Consequently, whenever that call returns 0 or a status returned by
the task, the entry point returns 0. -/
theorem LLVMFuzzerTestOneInput_delegates {G H Inst : Type} (api : CompilerHLSL G H Inst)
    (run : List Nat → Nat → Task G H Inst → Prog G H Inst Int)
    (data : List Nat) (size : Nat) (w : World G H Inst) :
    LLVMFuzzerTestOneInput api run data size w =
      run data size (FuzzTask api) (w.record (Call.RunWithOptions data size)) ∧
    (w.record (Call.RunWithOptions data size)).trace = w.trace ++ [Call.RunWithOptions data size] ∧
    (∀ s, (run data size (FuzzTask api) (w.record (Call.RunWithOptions data size))).1 = .ok s →
      (LLVMFuzzerTestOneInput api run data size w).1 = .ok s) ∧
    (∀ s, (run data size (FuzzTask api) (w.record (Call.RunWithOptions data size))).1 = .ok s →
      (s = 0 ∨ ∃ input options w', (FuzzTask api input options w').1 = .ok s) →
      (LLVMFuzzerTestOneInput api run data size w).1 = .ok 0) := by
  refine ⟨rfl, rfl, fun s hs => hs, ?_⟩
  intro s hs h
  have hz : s = 0 := by
    rcases h with h | ⟨input, options, w', h⟩
    · exact h
    · exact FuzzTask_status_eq_zero api input options w' s h
  rw [← hz]
  exact hs

/-- Witness for C4: with the modelled `RunWithOptions` and the sample compiler
the call returns the status of the task on the module `[7]`, and the entry
point returns 0. -/
theorem LLVMFuzzerTestOneInput_delegates_witness :
    (RunWithOptions sampleLayout [0, 0, 0, 0, 7, 0, 0, 0] 8 (FuzzTask sampleCompiler)
      ((World.fresh : World (List Nat) (List Nat) SampleInst).record
        (Call.RunWithOptions [0, 0, 0, 0, 7, 0, 0, 0] 8))).1 = .ok 0 ∧
    (LLVMFuzzerTestOneInput sampleCompiler (RunWithOptions sampleLayout)
      [0, 0, 0, 0, 7, 0, 0, 0] 8 World.fresh).1 = .ok 0 :=
  ⟨rfl, (LLVMFuzzerTestOneInput_delegates sampleCompiler (RunWithOptions sampleLayout)
    [0, 0, 0, 0, 7, 0, 0, 0] 8 World.fresh).2.2.2 0 rfl (Or.inl rfl)⟩

/-! ## The harness as a whole -/

/-- C6: truncation law.  The module words the harness hands to `FuzzTask` are
extracted from the bytes left over after the decoder's prefix; there are
`leftover / 4` of them, so their byte length is the largest multiple of 4 not
exceeding the leftover, and word `k` is made of the four supplied bytes at
`4 * k` and fits in 32 bits: the bytes of a trailing partial word are dropped
and nothing is padded. -/
theorem harness_truncation_law {Inst : Type} (L : OptionLayout)
    (api : CompilerHLSL (List Nat) (List Nat) Inst) (data : List Nat) (size : Nat)
    (w : World (List Nat) (List Nat) Inst) :
    ∃ leftover words, leftover = (data.take size).drop L.consumed ∧
      LLVMFuzzerTestOneInput api (RunWithOptions L) data size w =
        FuzzTask api words (decodeOptions L (data.take size))
          ((w.record (Call.RunWithOptions data size)).record
            (Call.FuzzTask words (decodeOptions L (data.take size)))) ∧
      leftover.length = min size data.length - L.consumed ∧
      words.length = leftover.length / 4 ∧
      4 * words.length ≤ leftover.length ∧ leftover.length < 4 * words.length + 4 ∧
      (∀ k, k < words.length → words[k]? =
        some (wordOfBytes (leftover.getD (4 * k) 0) (leftover.getD (4 * k + 1) 0)
          (leftover.getD (4 * k + 2) 0) (leftover.getD (4 * k + 3) 0))) ∧
      words = extractWords (leftover.take (4 * (leftover.length / 4))) ∧
      (∀ x ∈ words, x < 4294967296) := by
  refine ⟨(data.take size).drop L.consumed,
    extractWords ((data.take size).drop L.consumed), rfl, rfl, ?_, ?_, ?_, ?_, ?_, ?_,
    extractWords_lt _⟩
  · simp
  · exact extractWords_length _
  · rw [extractWords_length]
    omega
  · rw [extractWords_length]
    omega
  · intro k hk
    rw [extractWords_length] at hk
    exact extractWords_word _ k hk
  · exact (extractWords_take _).symm

/-- A field whose slice ends within the first `n` bytes is decoded from those
bytes alone. -/
theorem decodeField_take (f : OptionField) (offset n : Nat) (raw : List Nat)
    (h : offset + f.width ≤ n) :
    decodeField f offset (raw.take n) = decodeField f offset raw := by
  unfold decodeField
  have hs : ((raw.take n).drop offset).take f.width = (raw.drop offset).take f.width := by
    rw [List.drop_take, List.take_take]
    congr 1
    omega
  by_cases hl : offset + f.width ≤ raw.length
  · rw [if_pos hl, if_pos (by rw [List.length_take]; omega), hs]
  · rw [if_neg hl, if_neg (by rw [List.length_take]; omega)]

/-- A group whose byte range ends within the first `n` bytes is decoded from
those bytes alone. -/
theorem decodeGroup_take (fs : List OptionField) (offset n : Nat) (raw : List Nat)
    (h : offset + groupWidth fs ≤ n) :
    decodeGroup fs offset (raw.take n) = decodeGroup fs offset raw := by
  induction fs generalizing offset with
  | nil => rfl
  | cons f fs ih =>
    have hw : groupWidth (f :: fs) = f.width + groupWidth fs := by simp [groupWidth]
    rw [hw] at h
    simp only [decodeGroup]
    rw [decodeField_take f offset n raw (by omega), ih (offset + f.width) (by omega)]

/-- The decoder reads its own byte range only: inputs that agree on the first
`L.consumed` bytes decode to the same OptionSet, whatever follows. -/
theorem decodeOptions_of_option_bytes (L : OptionLayout) (raw raw' : List Nat)
    (h : raw'.take L.consumed = raw.take L.consumed) :
    decodeOptions L raw' = decodeOptions L raw := by
  have key : ∀ r : List Nat, decodeOptions L (r.take L.consumed) = decodeOptions L r := by
    intro r
    unfold decodeOptions
    rw [decodeGroup_take L.glsl 0 L.consumed r (by unfold OptionLayout.consumed; omega),
      decodeGroup_take L.hlsl (groupWidth L.glsl) L.consumed r (Nat.le_refl _)]
  rw [← key raw', h, key raw]

/-- The extractor reads complete words only: byte sequences that agree on their
complete words give the same module, whatever their partial tails. -/
theorem extractWords_of_complete_words (l l' : List Nat)
    (h : l'.take (4 * (l'.length / 4)) = l.take (4 * (l.length / 4))) :
    extractWords l' = extractWords l := by
  rw [← extractWords_take l', h, extractWords_take l]

/-- The entry point over the modelled harness, in any world: the outcome, calls
and change of the live count are those of `FuzzTask` in a fresh process on the
decoded module and options, after the two call records. -/
theorem harness_frame {Inst : Type} (L : OptionLayout)
    (api : CompilerHLSL (List Nat) (List Nat) Inst) (data : List Nat) (size : Nat)
    (w : World (List Nat) (List Nat) Inst) :
    LLVMFuzzerTestOneInput api (RunWithOptions L) data size w =
      ((FuzzTask api (extractWords ((data.take size).drop L.consumed))
          (decodeOptions L (data.take size)) World.fresh).1,
       { trace := w.trace ++ Call.RunWithOptions data size ::
           Call.FuzzTask (extractWords ((data.take size).drop L.consumed))
             (decodeOptions L (data.take size)) ::
           (FuzzTask api (extractWords ((data.take size).drop L.consumed))
             (decodeOptions L (data.take size)) World.fresh).2.trace
         live := w.live + (FuzzTask api (extractWords ((data.take size).drop L.consumed))
             (decodeOptions L (data.take size)) World.fresh).2.live }) := by
  show FuzzTask api _ _ _ = _
  rw [FuzzTask_frame]
  simp [World.record]

/-- After a run of `FuzzTask` in a fresh process no instance is alive, unless
the process crashed. -/
theorem FuzzTask_fresh_live {G H Inst : Type} (api : CompilerHLSL G H Inst)
    (input : List Nat) (options : CombinedOptions G H) :
    (∃ n, (FuzzTask api input options World.fresh).1 = .error (.crash n)) ∨
      (FuzzTask api input options World.fresh).2.live = 0 := by
  unfold FuzzTask
  cases h0 : api.construct input with
  | error e => simp [World.record, World.fresh]
  | ok c0 =>
    cases h1 : api.set_common_options c0 options.glsl with
    | error e => cases e <;> simp [*, World.record, World.fresh, leaveScope]
    | ok c1 =>
      cases h2 : api.set_hlsl_options c1 options.hlsl with
      | error e => cases e <;> simp [*, World.record, World.fresh, leaveScope]
      | ok c2 =>
        cases h3 : api.compile c2 with
        | error e => cases e <;> simp [*, World.record, World.fresh, leaveScope]
        | ok text => simp [*, World.record, World.fresh, leaveScope]

/-- C9: determinism and isolation.  The compiler may depend on the world it is
called in, that is on the whole history of earlier calls; `hdet` is the premise
that it is deterministic: it behaves the same after every history.  Then

* `FuzzTask` has the same outcome and makes the same calls in any two worlds;
* raw inputs that are equal agree on their significant bytes (the decoder's
  byte range and the complete words after it);
* two invocations of the entry point whose raw inputs agree on the significant
  bytes decode the same OptionSet and the same ModuleWords, have the same
  outcome, make the same calls with the same arguments after the
  `RunWithOptions` record, and change the number of live instances equally,
  whatever worlds they start in; and an invocation leaves the number of live
  instances as it found it unless the process crashed.

The decoded values are functions of the bytes the decoder and the extractor own,
and nothing left by earlier invocations is read. -/
theorem harness_deterministic {Inst : Type} (L : OptionLayout)
    (apiOf : World (List Nat) (List Nat) Inst → CompilerHLSL (List Nat) (List Nat) Inst)
    (data : List Nat) (size : Nat) (w1 w2 : World (List Nat) (List Nat) Inst)
    (hdet : ∀ w w', apiOf w = apiOf w') :
    (∀ input options,
      (FuzzTask (apiOf w1) input options w1).1 = (FuzzTask (apiOf w2) input options w2).1 ∧
      ∃ calls, (FuzzTask (apiOf w1) input options w1).2.trace = w1.trace ++ calls ∧
        (FuzzTask (apiOf w2) input options w2).2.trace = w2.trace ++ calls) ∧
    (∀ (data' : List Nat) (size' : Nat), data'.take size' = data.take size →
      (data'.take size').take L.consumed = (data.take size).take L.consumed ∧
      ((data'.take size').drop L.consumed).take
          (4 * (((data'.take size').drop L.consumed).length / 4)) =
        ((data.take size).drop L.consumed).take
          (4 * (((data.take size).drop L.consumed).length / 4))) ∧
    (∀ (data' : List Nat) (size' : Nat),
      (data'.take size').take L.consumed = (data.take size).take L.consumed →
      ((data'.take size').drop L.consumed).take
          (4 * (((data'.take size').drop L.consumed).length / 4)) =
        ((data.take size).drop L.consumed).take
          (4 * (((data.take size).drop L.consumed).length / 4)) →
      decodeOptions L (data'.take size') = decodeOptions L (data.take size) ∧
      extractWords ((data'.take size').drop L.consumed) =
        extractWords ((data.take size).drop L.consumed) ∧
      (LLVMFuzzerTestOneInput (apiOf w1) (RunWithOptions L) data size w1).1 =
        (LLVMFuzzerTestOneInput (apiOf w2) (RunWithOptions L) data' size' w2).1 ∧
      (∃ rest,
        (LLVMFuzzerTestOneInput (apiOf w1) (RunWithOptions L) data size w1).2.trace =
          w1.trace ++ Call.RunWithOptions data size ::
            Call.FuzzTask (extractWords ((data.take size).drop L.consumed))
              (decodeOptions L (data.take size)) :: rest ∧
        (LLVMFuzzerTestOneInput (apiOf w2) (RunWithOptions L) data' size' w2).2.trace =
          w2.trace ++ Call.RunWithOptions data' size' ::
            Call.FuzzTask (extractWords ((data.take size).drop L.consumed))
              (decodeOptions L (data.take size)) :: rest) ∧
      (LLVMFuzzerTestOneInput (apiOf w1) (RunWithOptions L) data size w1).2.live + w2.live =
        (LLVMFuzzerTestOneInput (apiOf w2) (RunWithOptions L) data' size' w2).2.live
          + w1.live) ∧
    ((∃ n, (LLVMFuzzerTestOneInput (apiOf w1) (RunWithOptions L) data size w1).1
        = .error (.crash n)) ∨
      (LLVMFuzzerTestOneInput (apiOf w1) (RunWithOptions L) data size w1).2.live = w1.live) := by
  have hapi : apiOf w2 = apiOf w1 := hdet w2 w1
  refine ⟨?_, ?_, ?_, ?_⟩
  · intro input options
    rw [hapi, FuzzTask_frame (apiOf w1) input options w1,
      FuzzTask_frame (apiOf w1) input options w2]
    exact ⟨rfl, _, rfl, rfl⟩
  · intro data' size' h
    rw [h]
    exact ⟨rfl, rfl⟩
  · intro data' size' hopt hmod
    have ho := decodeOptions_of_option_bytes L (data.take size) (data'.take size') hopt
    have hw := extractWords_of_complete_words ((data.take size).drop L.consumed)
      ((data'.take size').drop L.consumed) hmod
    rw [hapi, harness_frame L (apiOf w1) data size w1,
      harness_frame L (apiOf w1) data' size' w2, ho, hw]
    refine ⟨rfl, rfl, rfl, ⟨_, rfl, rfl⟩, ?_⟩
    show w1.live + _ + w2.live = w2.live + _ + w1.live
    omega
  · rw [harness_frame L (apiOf w1) data size w1]
    rcases FuzzTask_fresh_live (apiOf w1)
        (extractWords ((data.take size).drop L.consumed))
        (decodeOptions L (data.take size)) with h | h
    · exact Or.inl h
    · right
      show w1.live + _ = w1.live
      rw [h]
      rfl

/-- Witness for C9: the sample compiler, the same after every history.  Nine
bytes run in a fresh world, and ten bytes that differ from them only in the
partial trailing word run in a world that already holds a call and three live
instances: both invocations decode the options `[0, 1]`, `[0]` and the module
`[7]` and return the same status. -/
theorem harness_deterministic_witness :
    (∀ w w' : World (List Nat) (List Nat) SampleInst,
      (fun _ => sampleCompiler) w = (fun _ => sampleCompiler) w') ∧
    decodeOptions sampleLayout (List.take 10 [0, 0, 0, 0, 7, 0, 0, 0, 6, 6, 1]) =
      decodeOptions sampleLayout (List.take 9 [0, 0, 0, 0, 7, 0, 0, 0, 5]) ∧
    extractWords ((List.take 10 [0, 0, 0, 0, 7, 0, 0, 0, 6, 6, 1]).drop sampleLayout.consumed) =
      extractWords ((List.take 9 [0, 0, 0, 0, 7, 0, 0, 0, 5]).drop sampleLayout.consumed) ∧
    (LLVMFuzzerTestOneInput sampleCompiler (RunWithOptions sampleLayout)
      [0, 0, 0, 0, 7, 0, 0, 0, 5] 9 World.fresh).1 =
    (LLVMFuzzerTestOneInput sampleCompiler (RunWithOptions sampleLayout)
      [0, 0, 0, 0, 7, 0, 0, 0, 6, 6, 1] 10 { trace := [Call.destroy], live := 3 }).1 := by
  have h := (harness_deterministic sampleLayout (fun _ => sampleCompiler)
    [0, 0, 0, 0, 7, 0, 0, 0, 5] 9 World.fresh { trace := [Call.destroy], live := 3 }
    (fun _ _ => rfl)).2.2.1 [0, 0, 0, 0, 7, 0, 0, 0, 6, 6, 1] 10 rfl rfl
  exact ⟨fun _ _ => rfl, h.1, h.2.1, h.2.2.1⟩

end Dawn
